import Mathlib

/-!
Verification of the Gif-aichemy frame-processing pipeline.

Shallow embedding of the pixel algorithms in `src/services/gifService.ts`,
the retry logic in `src/services/geminiService.ts` and the per-run job
scheduling state in `src/components/GifEditor.tsx`.

Modelling conventions:
* JavaScript IEEE-754 doubles are modelled by exact rationals (`ℚ`).
  All source computations on colors are exact except for `Math.sqrt`;
  the source only ever *compares* square roots of integers against each
  other or against the integer thresholds 60 and 80, and the correctly
  rounded double `sqrt` is strictly monotone on the integers 0..195075
  (distinct integers there differ in `sqrt` by at least `1/883`, far above
  one ulp), so every such comparison is modelled by the equivalent exact
  comparison of squared distances.
* Pixels are RGBA quadruples of naturals in 0..255; a frame is the list of
  its pixels (the 2-d layout is irrelevant to the per-pixel passes).
* Hex-string parsing (`hexToRgb`) is outside the model: rules and key
  colors enter the model as already-parsed RGB triples.
-/

namespace GifAichemy

/-- An (r,g,b) triple, each channel in 0..255. -/
structure RGB where
  r : ℕ
  g : ℕ
  b : ℕ
deriving DecidableEq

/-- One RGBA pixel of the frame buffer. -/
structure RGBA where
  r : ℕ
  g : ℕ
  b : ℕ
  a : ℕ
deriving DecidableEq

/-- `rgbToHsl` from gifService.ts lines 15-33, on exact rationals.
The JS `switch (max) { case r: ... case g: ... case b: ... }` tests
`max === r`, then `max === g`, then falls to the `b` case. -/
def rgbToHsl (r0 g0 b0 : ℕ) : ℚ × ℚ × ℚ :=
  let r : ℚ := (r0 : ℚ) / 255
  let g : ℚ := (g0 : ℚ) / 255
  let b : ℚ := (b0 : ℚ) / 255
  let mx := max r (max g b)
  let mn := min r (min g b)
  let l := (mx + mn) / 2
  if mx = mn then (0, 0, l)
  else
    let d := mx - mn
    let s := if l > 1/2 then d / (2 - mx - mn) else d / (mx + mn)
    let h :=
      if mx = r then (g - b) / d + (if g < b then 6 else 0)
      else if mx = g then (b - r) / d + 2
      else (r - g) / d + 4
    (h / 6, s, l)

/-- The inner `hue2rgb` helper of `hslToRgb` (gifService.ts lines 43-50). -/
def hue2rgb (p q t0 : ℚ) : ℚ :=
  let t1 := if t0 < 0 then t0 + 1 else t0
  let t := if t1 > 1 then t1 - 1 else t1
  if t < 1/6 then p + (q - p) * 6 * t
  else if t < 1/2 then q
  else if t < 2/3 then p + (q - p) * (2/3 - t) * 6
  else p

/-- JavaScript `Math.round`: round half toward positive infinity. -/
def jsRound (q : ℚ) : ℤ := ⌊q + 1/2⌋

/-- `hslToRgb` from gifService.ts lines 38-58. -/
def hslToRgb (h s l : ℚ) : ℕ × ℕ × ℕ :=
  if s = 0 then
    let v := (jsRound (l * 255)).toNat
    (v, v, v)
  else
    let q := if l < 1/2 then l * (1 + s) else l + s - l * s
    let p := 2 * l - q
    let r := hue2rgb p q (h + 1/3)
    let g := hue2rgb p q h
    let b := hue2rgb p q (h - 1/3)
    ((jsRound (r * 255)).toNat, (jsRound (g * 255)).toNat, (jsRound (b * 255)).toNat)

/-- Squared Euclidean RGB distance.  The source (`colorDistance`,
gifService.ts lines 71-77) computes `Math.sqrt` of this value; all its
uses are comparisons, which squaring preserves (see file header). -/
def colorDistSq (c1 c2 : RGB) : ℕ :=
  ((c1.r : ℤ) - c2.r).natAbs ^ 2 + ((c1.g : ℤ) - c2.g).natAbs ^ 2 +
    ((c1.b : ℤ) - c2.b).natAbs ^ 2

/-- One recolor rule, already parsed from hex (`config.recolorPairs`). -/
structure RecolorPair where
  original : RGB
  target : RGB
deriving DecidableEq

/-- The precomputed form built at gifService.ts lines 193-198:
source color in RGB plus the target color converted to HSL. -/
structure ProcessedPair where
  originalRGB : RGB
  targetHSL : ℚ × ℚ × ℚ
deriving DecidableEq

/-- gifService.ts lines 193-198: precompute each pair. -/
def processPairs (pairs : List RecolorPair) : List ProcessedPair :=
  pairs.map fun p => ⟨p.original, rgbToHsl p.target.r p.target.g p.target.b⟩

/-- The RGB-distance threshold of the recolor pass (gifService.ts line 200). -/
def threshold : ℕ := 60

/-- The best-match scan of gifService.ts lines 207-218: fold over the rule
list keeping the rule of strictly smallest distance seen so far.
`minD` carries the squared current minimum (initially `threshold²`). -/
def bestMatchAux (c : RGB) : List ProcessedPair → Option ProcessedPair → ℕ → Option ProcessedPair
  | [], best, _ => best
  | p :: ps, best, minD =>
    if colorDistSq c p.originalRGB < minD then
      bestMatchAux c ps (some p) (colorDistSq c p.originalRGB)
    else
      bestMatchAux c ps best minD

/-- `bestMatch` as initialized at gifService.ts lines 207-208
(`bestMatch = null`, `minDistance = threshold`). -/
def bestMatch (c : RGB) (ps : List ProcessedPair) : Option ProcessedPair :=
  bestMatchAux c ps none (threshold * threshold)

/-- The per-pixel body of the recolor loop (gifService.ts lines 202-234):
skip pixels with alpha < 10; otherwise recolor the best-matching rule's
pixel to `hslToRgb(targetHue, targetSat, currentLightness)`, alpha kept. -/
def recolorPixel (ps : List ProcessedPair) (px : RGBA) : RGBA :=
  if px.a < 10 then px
  else
    match bestMatch ⟨px.r, px.g, px.b⟩ ps with
    | none => px
    | some pr =>
      let cL := (rgbToHsl px.r px.g px.b).2.2
      let n := hslToRgb pr.targetHSL.1 pr.targetHSL.2.1 cL
      ⟨n.1, n.2.1, n.2.2, px.a⟩

/-- The whole recolor pass over a frame (the loop of gifService.ts
lines 202-234; each iteration touches only its own pixel). -/
def recolorPass (pairs : List RecolorPair) (frame : List RGBA) : List RGBA :=
  frame.map (recolorPixel (processPairs pairs))

/-- The background-removal tolerance (gifService.ts line 245). -/
def tolerance : ℕ := 60

/-- Round half to even, the rounding a `Uint8ClampedArray` store applies
to a non-integer value. -/
def roundHalfEven (q : ℚ) : ℤ :=
  if q - ⌊q⌋ < 1/2 then ⌊q⌋
  else if 1/2 < q - ⌊q⌋ then ⌊q⌋ + 1
  else if ⌊q⌋ % 2 = 0 then ⌊q⌋ else ⌊q⌋ + 1

/-- The alpha byte stored by the feathering branch
(gifService.ts lines 272-276):
`data[i+3] = Math.max(0, Math.min(255, data[i+3] * (diff - 60) / 20))`
followed by the clamped-byte store rounding, where `diff = √s` and `s` is
the squared distance of the pixel to the key color.  In the feathering
branch `3600 ≤ s < 6400`, so the value is in `[0, 255)` and the outer
clamp is equivalent to clamping after rounding.
* If `s` is a perfect square `k²`, the value `a·(k-60)/20` is an exact
  rational and the store rounds it half-to-even.
* Otherwise `√s` is irrational, no tie can occur, and the stored byte is
  `⌊a·√s/20 - 3a + 1/2⌋ = (⌊√(a²·s)⌋ + 10 - 60·a) / 20` (the floor moves
  inside because no multiple of 20 lies in the gap `(⌊√(a²s)⌋, √(a²s))`,
  and `⌊√(a²s)⌋ + 10 ≥ 60·a` whenever `s ≥ 3600`). -/
def featherAlpha (s a : ℕ) : ℕ :=
  if Nat.sqrt s * Nat.sqrt s = s then
    (max 0 (min 255 (roundHalfEven ((a : ℚ) * ((Nat.sqrt s : ℚ) - 60) / 20)))).toNat
  else
    min 255 ((Nat.sqrt (a * a * s) + 10 - 60 * a) / 20)

/-- The per-pixel body of the remove-background loop
(gifService.ts lines 247-277): skip fully transparent pixels; within the
tolerance either write the solid replacement at full alpha or clear the
alpha; in the feathering band (transparent mode only) scale the alpha. -/
def removeBgPixel (bgRGB : RGB) (replaceRGB : Option RGB) (px : RGBA) : RGBA :=
  if px.a = 0 then px
  else
    let s := colorDistSq ⟨px.r, px.g, px.b⟩ bgRGB
    if s < tolerance * tolerance then
      match replaceRGB with
      | some rep => ⟨rep.r, rep.g, rep.b, 255⟩
      | none => ⟨px.r, px.g, px.b, 0⟩
    else if s < (tolerance + 20) * (tolerance + 20) ∧ replaceRGB = none then
      ⟨px.r, px.g, px.b, featherAlpha s px.a⟩
    else px

/-- The whole remove-background pass over a frame (the loop of
gifService.ts lines 247-277). -/
def removeBgPass (bgRGB : RGB) (replaceRGB : Option RGB) (frame : List RGBA) : List RGBA :=
  frame.map (removeBgPixel bgRGB replaceRGB)

/-- The two edit modes of the editor. -/
inductive Mode
  | recolor
  | removeBg
deriving DecidableEq

/-- `ProcessingConfig` (gifService.ts lines 161-165) after hex parsing:
`removeBgColor` already defaulted to the chroma key when absent, and
`bgReplacementColor = none` meaning transparent output. -/
structure ProcessingConfig where
  recolorPairs : List RecolorPair
  removeBgColor : RGB
  bgReplacementColor : Option RGB

/-- The pixel transformation of `processFrameLocal`
(gifService.ts lines 170-282): the recolor pass (when the mode is active
and the rule list is non-empty) followed by the remove-background pass
(when that mode is active), both on a copy of the input buffer. -/
def processFrameLocalPixels (modes : List Mode) (config : ProcessingConfig)
    (frame : List RGBA) : List RGBA :=
  let afterRecolor :=
    if Mode.recolor ∈ modes ∧ config.recolorPairs ≠ [] then
      recolorPass config.recolorPairs frame
    else frame
  if Mode.removeBg ∈ modes then
    removeBgPass config.removeBgColor config.bgReplacementColor afterRecolor
  else afterRecolor

/-- Result type for the local frame processor.  The
`renderContextUnavailable` constructor models the `RenderContextUnavailable`
error demanded by the spec; the source never produces it. -/
inductive LocalProcResult
  | renderContextUnavailable
  | ok (pixels : List RGBA)
deriving DecidableEq

/-- `processFrameLocal` with its canvas-context dependency made explicit:
`hasCtx` is whether `canvas.getContext('2d')` returned a context.  The
source (gifService.ts lines 175-179) executes `if (!ctx) return imageData`,
i.e. it silently returns the input frame when the context is unavailable. -/
def processFrameLocal (hasCtx : Bool) (modes : List Mode) (config : ProcessingConfig)
    (frame : List RGBA) : LocalProcResult :=
  if hasCtx = false then LocalProcResult.ok frame
  else LocalProcResult.ok (processFrameLocalPixels modes config frame)

/-! ## Frame downsampling (GifEditor.tsx lines 159-166, constants.ts) -/

/-- `MAX_FRAMES` from constants.ts line 2. -/
def MAX_FRAMES : ℕ := 50

/-- A decoded frame: its pixel buffer and its display delay in ms. -/
structure GifFrame where
  pixels : List RGBA
  delay : ℕ
deriving DecidableEq

/-- The downsampling step of `handleFileUpload`
(GifEditor.tsx lines 159-166): when more than `MAX_FRAMES` frames were
decoded, keep every `stride`-th frame (`stride = Math.ceil(n / MAX_FRAMES)`,
here the equivalent `(n + MAX_FRAMES - 1) / MAX_FRAMES` on naturals) and
multiply each kept frame's delay by `stride`. -/
def downsampleFrames (frames : List GifFrame) : List GifFrame :=
  if MAX_FRAMES < frames.length then
    let stride := (frames.length + MAX_FRAMES - 1) / MAX_FRAMES
    (frames.enum.filter (fun p => p.1 % stride == 0)).map
      (fun p => { p.2 with delay := p.2.delay * stride })
  else frames

/-! ## Remote retry with backoff (geminiService.ts lines 12-30) -/

/-- The error object a remote attempt may throw: an optional HTTP status
and an optional message (`error.status`, `error.message`). -/
structure RemoteError where
  status : Option ℕ
  message : Option String
deriving DecidableEq

/-- JavaScript `haystack.includes(needle)` on strings. -/
def containsSubstr (haystack needle : String) : Bool :=
  decide (needle.toList <:+: haystack.toList)

/-- The quota classification of `generateWithRetry`
(geminiService.ts lines 16-19): status 429, or a message containing
"429", "quota" or "exhausted"; `error.message?.includes(...)` is falsy
when the message is absent. -/
def isQuotaError (e : RemoteError) : Bool :=
  (e.status == some 429) ||
  (e.message.map (fun m => containsSubstr m "429")).getD false ||
  (e.message.map (fun m => containsSubstr m "quota")).getD false ||
  (e.message.map (fun m => containsSubstr m "exhausted")).getD false

/-- Outcome of a single remote attempt (the wrapped `fn`). -/
inductive AttemptResult
  | ok (image : ℕ)
  | error (e : RemoteError)
deriving DecidableEq

/-- `generateWithRetry` (geminiService.ts lines 12-30).  `fn k` is the
outcome of the `k`-th attempt, `jitter k` the value of `Math.random()*1000`
drawn before the `k`-th retry delay.  The source guard
`retries > 0 && isQuotaError` is split into the `0` / `t+1` cases; the
delay of a retry at `retries` remaining is
`baseDelay * 2 ^ (3 - retries) + jitter`.  Returns the final result and
the list of delays waited. -/
def generateWithRetry (fn : ℕ → AttemptResult) (jitter : ℕ → ℚ) (baseDelay : ℚ) :
    ℕ → ℕ → Except RemoteError ℕ × List ℚ
  | attempt, 0 =>
    match fn attempt with
    | .ok v => (Except.ok v, [])
    | .error e => (Except.error e, [])
  | attempt, t + 1 =>
    match fn attempt with
    | .ok v => (Except.ok v, [])
    | .error e =>
      if isQuotaError e then
        let d := baseDelay * 2 ^ (3 - (t + 1)) + jitter attempt
        let rest := generateWithRetry fn jitter baseDelay (attempt + 1) t
        (rest.1, d :: rest.2)
      else (Except.error e, [])

/-- `generateWithRetry` at its call site: `retries = 3`, `baseDelay = 2000`
(geminiService.ts line 12). -/
def generateWithRetryTop (fn : ℕ → AttemptResult) (jitter : ℕ → ℚ) :
    Except RemoteError ℕ × List ℚ :=
  generateWithRetry fn jitter 2000 0 3

/-! ## Per-run job scheduling state (GifEditor.tsx lines 267-333)

The flag logic of `processSingleFrame` is modelled as a fold over the
jobs in the order their remote phase starts.  In the source the check
`activeUseAI && !quotaLimitReached` is the first statement of a job (no
await between job start and the read), and `quotaLimitReached` is only
ever set to `true`, never cleared, so reading the flag at job start and
applying a job's flag update before the next job's read is a sound
rendering of every interleaving of the two workers: any job that starts
after the flag is set reads `true`. -/

/-- The quota classification applied at the job level
(GifEditor.tsx line 305): message-based only. -/
def isQuotaMessage (e : RemoteError) : Bool :=
  (e.message.map (fun m =>
    containsSubstr m "429" || containsSubstr m "quota" || containsSubstr m "exhausted")).getD false

/-- What the remote call would do for one frame job. -/
inductive RemoteOutcome
  | success
  | failure (e : RemoteError)
deriving DecidableEq

/-- One frame job, described by its remote behaviour. -/
structure JobSpec where
  outcome : RemoteOutcome
deriving DecidableEq

/-- What a job did: whether it attempted the remote call, and whether its
final frame came from the local fallback. -/
structure JobResult where
  attemptedRemote : Bool
  usedLocal : Bool
deriving DecidableEq

/-- One run of `processSingleFrame` (GifEditor.tsx lines 271-333) as far
as the shared flag is concerned: attempt the remote call only when
`activeUseAI && !quotaLimitReached`; on a quota-classified failure set
the flag; whenever no remote image was produced, fall back to
`processFrameLocal`. -/
def runJob (activeUseAI quotaLimitReached : Bool) (j : JobSpec) : JobResult × Bool :=
  if activeUseAI && !quotaLimitReached then
    match j.outcome with
    | .success => (⟨true, false⟩, quotaLimitReached)
    | .failure e => (⟨true, true⟩, quotaLimitReached || isQuotaMessage e)
  else (⟨false, true⟩, quotaLimitReached)

/-- Run the jobs in start order, threading the quota flag; returns the
per-job results and the final flag. -/
def runJobsAux (activeUseAI : Bool) (flag : Bool) : List JobSpec → List JobResult × Bool
  | [] => ([], flag)
  | j :: js =>
    let s := runJob activeUseAI flag j
    let rest := runJobsAux activeUseAI s.2 js
    (s.1 :: rest.1, rest.2)

/-- The per-job results of a run. -/
def runJobs (activeUseAI flag : Bool) (jobs : List JobSpec) : List JobResult :=
  (runJobsAux activeUseAI flag jobs).1

/-- The value of `quotaLimitReached` after a run. -/
def finalFlag (activeUseAI flag : Bool) (jobs : List JobSpec) : Bool :=
  (runJobsAux activeUseAI flag jobs).2

/-- The requested background replacement of a project
(`project.bgReplaceColor`): the literal string `'transparent'` or a solid
color. -/
inductive BgReplace
  | transparent
  | color (c : RGB)
deriving DecidableEq

/-- The `transparentKey` computation of `triggerProcessProject`
(GifEditor.tsx lines 353-357), evaluated after a non-cancelled run. -/
def transparentKey (modes : List Mode) (bgReplace : BgReplace)
    (activeUseAI quotaLimitReached : Bool) : Option ℕ :=
  if Mode.removeBg ∈ modes ∧ bgReplace = BgReplace.transparent then
    if activeUseAI && !quotaLimitReached then some 0x00FF00 else none
  else none

/-! ## Helper lemmas -/

/-- If every rule is at squared distance at least the running minimum, the
best-match scan never updates its accumulator. -/
lemma bestMatchAux_of_forall_le (c : RGB) (ps : List ProcessedPair)
    (b0 : Option ProcessedPair) (m0 : ℕ)
    (h : ∀ p ∈ ps, m0 ≤ colorDistSq c p.originalRGB) :
    bestMatchAux c ps b0 m0 = b0 := by
  induction ps generalizing b0 m0 with
  | nil => rfl
  | cons p ps ih =>
    rw [bestMatchAux, if_neg (not_lt.mpr (h p (List.mem_cons_self p ps)))]
    exact ih b0 m0 fun q hq => h q (List.mem_cons_of_mem p hq)

/-- The best-match scan returns the first rule attaining the minimum
distance, whenever that minimum beats the running minimum `m0`: later
rules at equal distance do not replace it because the update test is a
strict inequality. -/
lemma bestMatchAux_first_min (c : RGB) :
    ∀ (ps : List ProcessedPair) (i : ℕ) (hi : i < ps.length)
      (b0 : Option ProcessedPair) (m0 : ℕ),
      colorDistSq c (ps.get ⟨i, hi⟩).originalRGB < m0 →
      (∀ j (hj : j < ps.length),
        colorDistSq c (ps.get ⟨i, hi⟩).originalRGB ≤ colorDistSq c (ps.get ⟨j, hj⟩).originalRGB) →
      (∀ j (hj : j < i),
        colorDistSq c (ps.get ⟨i, hi⟩).originalRGB < colorDistSq c (ps.get ⟨j, lt_trans hj hi⟩).originalRGB) →
      bestMatchAux c ps b0 m0 = some (ps.get ⟨i, hi⟩)
  | [], i, hi => absurd hi (Nat.not_lt_zero i)
  | p :: ps, 0, hi => fun b0 m0 hlt hmin _ => by
    show (if colorDistSq c p.originalRGB < m0 then
        bestMatchAux c ps (some p) (colorDistSq c p.originalRGB)
      else bestMatchAux c ps b0 m0) = some ((p :: ps).get ⟨0, hi⟩)
    rw [if_pos (show colorDistSq c p.originalRGB < m0 from hlt)]
    exact bestMatchAux_of_forall_le c ps (some p) _ fun q hq => by
      obtain ⟨⟨j, hj⟩, rfl⟩ := List.mem_iff_get.mp hq
      exact hmin (j + 1) (Nat.succ_lt_succ hj)
  | p :: ps, n + 1, hi => fun b0 m0 hlt hmin hfirst => by
    have hn : n < ps.length := Nat.lt_of_succ_lt_succ hi
    have htop : colorDistSq c (ps.get ⟨n, hn⟩).originalRGB < colorDistSq c p.originalRGB :=
      hfirst 0 (Nat.succ_pos n)
    show (if colorDistSq c p.originalRGB < m0 then
        bestMatchAux c ps (some p) (colorDistSq c p.originalRGB)
      else bestMatchAux c ps b0 m0) = some ((p :: ps).get ⟨n + 1, hi⟩)
    by_cases hp : colorDistSq c p.originalRGB < m0
    · rw [if_pos hp]
      exact bestMatchAux_first_min c ps n hn (some p) _ htop
        (fun j hj => hmin (j + 1) (Nat.succ_lt_succ hj))
        (fun j hj => hfirst (j + 1) (Nat.succ_lt_succ hj))
    · rw [if_neg hp]
      exact bestMatchAux_first_min c ps n hn b0 m0 hlt
        (fun j hj => hmin (j + 1) (Nat.succ_lt_succ hj))
        (fun j hj => hfirst (j + 1) (Nat.succ_lt_succ hj))

/-! ## C1 -/

/-- C1: in the recolor pass, every pixel with alpha at least 10 whose
squared RGB distance to every rule's source color is at least 60² = 3600
is returned byte-identical, and every pixel with alpha below 10 is
skipped (returned byte-identical as well). -/
theorem recolor_preserves_far_and_transparent_pixels
    (pairs : List RecolorPair) (frame : List RGBA) (i : ℕ) (px : RGBA)
    (hpx : frame[i]? = some px) (_hne : pairs ≠ []) :
    ((10 ≤ px.a ∧ ∀ p ∈ pairs, 3600 ≤ colorDistSq ⟨px.r, px.g, px.b⟩ p.original) →
      (recolorPass pairs frame)[i]? = some px) ∧
    (px.a < 10 → (recolorPass pairs frame)[i]? = some px) := by
  have hmap : (recolorPass pairs frame)[i]? = (frame[i]?).map (recolorPixel (processPairs pairs)) :=
    List.getElem?_map _ frame i
  constructor
  · rintro ⟨ha, hfar⟩
    rw [hmap, hpx]
    have hnone : bestMatch ⟨px.r, px.g, px.b⟩ (processPairs pairs) = none := by
      apply bestMatchAux_of_forall_le
      intro q hq
      obtain ⟨p, hp, rfl⟩ := List.mem_map.mp hq
      exact hfar p hp
    simp [recolorPixel, not_lt.mpr ha, hnone]
  · intro ha
    rw [hmap, hpx]
    simp [recolorPixel, ha]

theorem recolor_preserves_far_and_transparent_pixels_witness :
    (recolorPass [⟨⟨0, 0, 0⟩, ⟨255, 255, 255⟩⟩] [⟨200, 200, 200, 255⟩])[0]? =
      some ⟨200, 200, 200, 255⟩ :=
  (recolor_preserves_far_and_transparent_pixels
      [⟨⟨0, 0, 0⟩, ⟨255, 255, 255⟩⟩] [⟨200, 200, 200, 255⟩] 0 ⟨200, 200, 200, 255⟩
      rfl (by decide)).1 ⟨by decide, by decide⟩

/-! ## C10 -/

/-- C10: when several rules are below the threshold, the rule chosen by
the best-match scan is the first rule attaining the minimum distance; in
particular on a tie the earliest rule in the list wins, because the scan
replaces its current best only on a strictly smaller distance. -/
theorem best_match_tie_breaks_to_first_rule (c : RGB) (ps : List ProcessedPair)
    (i : ℕ) (hi : i < ps.length)
    (hthresh : colorDistSq c (ps.get ⟨i, hi⟩).originalRGB < 3600)
    (hmin : ∀ j (hj : j < ps.length),
      colorDistSq c (ps.get ⟨i, hi⟩).originalRGB ≤ colorDistSq c (ps.get ⟨j, hj⟩).originalRGB)
    (hfirst : ∀ j (hj : j < i),
      colorDistSq c (ps.get ⟨i, hi⟩).originalRGB < colorDistSq c (ps.get ⟨j, lt_trans hj hi⟩).originalRGB) :
    bestMatch c ps = some (ps.get ⟨i, hi⟩) :=
  bestMatchAux_first_min c ps i hi none (threshold * threshold)
    (by simpa [threshold] using hthresh) hmin hfirst

theorem best_match_tie_breaks_to_first_rule_witness :
    bestMatch ⟨0, 0, 0⟩ [⟨⟨0, 0, 0⟩, (0, 0, 0)⟩, ⟨⟨0, 0, 0⟩, (1, 1, 1)⟩] =
      some ⟨⟨0, 0, 0⟩, (0, 0, 0)⟩ :=
  best_match_tie_breaks_to_first_rule ⟨0, 0, 0⟩
    [⟨⟨0, 0, 0⟩, (0, 0, 0)⟩, ⟨⟨0, 0, 0⟩, (1, 1, 1)⟩] 0 (by decide)
    (by decide) (by decide) (by decide)

/-! ## C2 -/

/-- C2: a pixel matched by a rule is rewritten to
`hslToRgb(targetHue, targetSaturation, currentLightness)` with its alpha
unchanged; and the single rule `#FF0000 → #0000FF` turns a fully opaque
solid red 10×10 frame (100 pixels) into exact pure blue, because red and
blue share HSL lightness 1/2. -/
theorem recolor_match_swaps_hue_sat_keeps_lightness :
    (∀ (ps : List ProcessedPair) (px : RGBA) (pr : ProcessedPair),
        ¬ px.a < 10 → bestMatch ⟨px.r, px.g, px.b⟩ ps = some pr →
        recolorPixel ps px =
          ⟨(hslToRgb pr.targetHSL.1 pr.targetHSL.2.1 (rgbToHsl px.r px.g px.b).2.2).1,
           (hslToRgb pr.targetHSL.1 pr.targetHSL.2.1 (rgbToHsl px.r px.g px.b).2.2).2.1,
           (hslToRgb pr.targetHSL.1 pr.targetHSL.2.1 (rgbToHsl px.r px.g px.b).2.2).2.2,
           px.a⟩) ∧
    processFrameLocal true [Mode.recolor]
        ⟨[⟨⟨255, 0, 0⟩, ⟨0, 0, 255⟩⟩], ⟨0, 255, 0⟩, none⟩
        (List.replicate 100 ⟨255, 0, 0, 255⟩) =
      LocalProcResult.ok (List.replicate 100 ⟨0, 0, 255, 255⟩) := by
  constructor
  · intro ps px pr h10 hbm
    simp [recolorPixel, h10, hbm]
  · have h1 : recolorPixel (processPairs [⟨⟨255, 0, 0⟩, ⟨0, 0, 255⟩⟩]) ⟨255, 0, 0, 255⟩ =
        ⟨0, 0, 255, 255⟩ := by
      norm_num [recolorPixel, bestMatch, bestMatchAux, processPairs, colorDistSq,
        rgbToHsl, hslToRgb, hue2rgb, jsRound, threshold]
      decide
    simp [processFrameLocal, processFrameLocalPixels, recolorPass, List.map_replicate, h1]

theorem recolor_match_swaps_hue_sat_keeps_lightness_witness :
    recolorPixel (processPairs [⟨⟨255, 0, 0⟩, ⟨0, 0, 255⟩⟩]) ⟨255, 0, 0, 255⟩ =
      ⟨0, 0, 255, 255⟩ := by
  have hbm : bestMatch ⟨255, 0, 0⟩ (processPairs [⟨⟨255, 0, 0⟩, ⟨0, 0, 255⟩⟩]) =
      some ⟨⟨255, 0, 0⟩, rgbToHsl 0 0 255⟩ := by
    norm_num [bestMatch, bestMatchAux, processPairs, colorDistSq, threshold]
  rw [recolor_match_swaps_hue_sat_keeps_lightness.1
    (processPairs [⟨⟨255, 0, 0⟩, ⟨0, 0, 255⟩⟩]) ⟨255, 0, 0, 255⟩
    ⟨⟨255, 0, 0⟩, rgbToHsl 0 0 255⟩ (by norm_num) hbm]
  norm_num [rgbToHsl, hslToRgb, hue2rgb, jsRound]
  decide

/-! ## C3 -/

/-- C3: background removal in transparent mode (no replacement color),
for pixels with positive alpha: squared distance below 3600 clears the
alpha (in particular a pixel equal to the key color), squared distance
in [3600, 6400) feathers the alpha to the clamped-byte rounding of
`alpha * (d - 60) / 20`, and squared distance at least 6400 leaves the
pixel unchanged; at distance 70 an alpha of 200 becomes exactly 100
(50% of its original value). -/
theorem bg_removal_transparent_mode (key : RGB) (px : RGBA) (ha : 0 < px.a) :
    (colorDistSq ⟨px.r, px.g, px.b⟩ key < 3600 →
      removeBgPixel key none px = ⟨px.r, px.g, px.b, 0⟩) ∧
    (RGB.mk px.r px.g px.b = key → removeBgPixel key none px = ⟨px.r, px.g, px.b, 0⟩) ∧
    (3600 ≤ colorDistSq ⟨px.r, px.g, px.b⟩ key →
      colorDistSq ⟨px.r, px.g, px.b⟩ key < 6400 →
      removeBgPixel key none px =
        ⟨px.r, px.g, px.b, featherAlpha (colorDistSq ⟨px.r, px.g, px.b⟩ key) px.a⟩) ∧
    (6400 ≤ colorDistSq ⟨px.r, px.g, px.b⟩ key → removeBgPixel key none px = px) ∧
    (∀ k a : ℕ, featherAlpha (k * k) a =
      (max 0 (min 255 (roundHalfEven ((a : ℚ) * ((k : ℚ) - 60) / 20)))).toNat) ∧
    featherAlpha 4900 200 = 100 := by
  have hane : ¬ px.a = 0 := Nat.pos_iff_ne_zero.mp ha
  have hsq : ∀ k a : ℕ, featherAlpha (k * k) a =
      (max 0 (min 255 (roundHalfEven ((a : ℚ) * ((k : ℚ) - 60) / 20)))).toNat := by
    intro k a
    simp [featherAlpha, Nat.sqrt_eq]
  refine ⟨?_, ?_, ?_, ?_, hsq, ?_⟩
  · intro h
    simp [removeBgPixel, hane, tolerance, h]
  · intro h
    have h0 : colorDistSq ⟨px.r, px.g, px.b⟩ key < 3600 := by
      rw [← h]
      simp [colorDistSq]
    simp [removeBgPixel, hane, tolerance, h0]
  · intro h1 h2
    simp [removeBgPixel, hane, tolerance, not_lt.mpr h1, h2]
  · intro h
    have h1 : ¬ colorDistSq ⟨px.r, px.g, px.b⟩ key < 3600 :=
      not_lt.mpr (le_trans (show (3600 : ℕ) ≤ 6400 by norm_num) h)
    have h2 : ¬ colorDistSq ⟨px.r, px.g, px.b⟩ key < 6400 := not_lt.mpr h
    simp [removeBgPixel, hane, tolerance, h1, h2]
  · rw [show (4900 : ℕ) = 70 * 70 from rfl, hsq 70 200]
    norm_num [roundHalfEven]
    decide

theorem bg_removal_transparent_mode_witness :
    removeBgPixel ⟨0, 255, 0⟩ none ⟨0, 255, 0, 128⟩ = ⟨0, 255, 0, 0⟩ ∧
    removeBgPixel ⟨0, 0, 0⟩ none ⟨70, 0, 0, 200⟩ = ⟨70, 0, 0, 100⟩ := by
  constructor
  · exact (bg_removal_transparent_mode ⟨0, 255, 0⟩ ⟨0, 255, 0, 128⟩ (by decide)).1 (by decide)
  · have h := (bg_removal_transparent_mode ⟨0, 0, 0⟩ ⟨70, 0, 0, 200⟩ (by decide)).2.2.1
      (by decide) (by decide)
    have h100 := (bg_removal_transparent_mode ⟨0, 0, 0⟩ ⟨70, 0, 0, 200⟩ (by decide)).2.2.2.2.2
    rw [h, show colorDistSq ⟨70, 0, 0⟩ ⟨0, 0, 0⟩ = 4900 from rfl, h100]

/-! ## C4 -/

/-- C4: background removal in solid-replacement mode, for pixels with
positive alpha: squared distance below 3600 writes the replacement RGB at
alpha 255; any pixel at squared distance at least 3600 — including the
feathering band [3600, 6400) of transparent mode — is left completely
unchanged. -/
theorem bg_removal_solid_mode (key rep : RGB) (px : RGBA) (ha : 0 < px.a) :
    (colorDistSq ⟨px.r, px.g, px.b⟩ key < 3600 →
      removeBgPixel key (some rep) px = ⟨rep.r, rep.g, rep.b, 255⟩) ∧
    (3600 ≤ colorDistSq ⟨px.r, px.g, px.b⟩ key → removeBgPixel key (some rep) px = px) := by
  have hane : ¬ px.a = 0 := Nat.pos_iff_ne_zero.mp ha
  constructor
  · intro h
    simp [removeBgPixel, hane, tolerance, h]
  · intro h
    simp [removeBgPixel, hane, tolerance, not_lt.mpr h]

theorem bg_removal_solid_mode_witness :
    removeBgPixel ⟨0, 0, 0⟩ (some ⟨1, 2, 3⟩) ⟨10, 0, 0, 200⟩ = ⟨1, 2, 3, 255⟩ ∧
    removeBgPixel ⟨0, 0, 0⟩ (some ⟨1, 2, 3⟩) ⟨70, 0, 0, 200⟩ = ⟨70, 0, 0, 200⟩ :=
  ⟨(bg_removal_solid_mode ⟨0, 0, 0⟩ ⟨1, 2, 3⟩ ⟨10, 0, 0, 200⟩ (by decide)).1 (by decide),
   (bg_removal_solid_mode ⟨0, 0, 0⟩ ⟨1, 2, 3⟩ ⟨70, 0, 0, 200⟩ (by decide)).2 (by decide)⟩

/-! ## C8 -/

/-- C8 (counterexample): with the rendering context unavailable,
`processFrameLocal` returns the input frame unchanged — it does not fail
with a `RenderContextUnavailable` error — even under a configuration that
would have recolored the frame had the context been available. -/
theorem processFrameLocal_missing_ctx_counterexample :
    processFrameLocal false [Mode.recolor]
        ⟨[⟨⟨255, 0, 0⟩, ⟨0, 0, 255⟩⟩], ⟨0, 255, 0⟩, none⟩ [⟨255, 0, 0, 255⟩] =
      LocalProcResult.ok [⟨255, 0, 0, 255⟩] ∧
    processFrameLocal false [Mode.recolor]
        ⟨[⟨⟨255, 0, 0⟩, ⟨0, 0, 255⟩⟩], ⟨0, 255, 0⟩, none⟩ [⟨255, 0, 0, 255⟩] ≠
      LocalProcResult.renderContextUnavailable ∧
    processFrameLocal true [Mode.recolor]
        ⟨[⟨⟨255, 0, 0⟩, ⟨0, 0, 255⟩⟩], ⟨0, 255, 0⟩, none⟩ [⟨255, 0, 0, 255⟩] =
      LocalProcResult.ok [⟨0, 0, 255, 255⟩] := by
  refine ⟨rfl, by simp [processFrameLocal], ?_⟩
  have h1 : recolorPixel (processPairs [⟨⟨255, 0, 0⟩, ⟨0, 0, 255⟩⟩]) ⟨255, 0, 0, 255⟩ =
      ⟨0, 0, 255, 255⟩ := by
    norm_num [recolorPixel, bestMatch, bestMatchAux, processPairs, colorDistSq,
      rgbToHsl, hslToRgb, hue2rgb, jsRound, threshold]
    decide
  simp [processFrameLocal, processFrameLocalPixels, recolorPass, h1]

/-- C8 (amended): whenever the rendering context is unavailable, the local
frame processor silently returns its input frame as the (successful)
result, for every mode set, configuration and frame. -/
theorem processFrameLocal_missing_ctx_returns_input (modes : List Mode)
    (config : ProcessingConfig) (frame : List RGBA) :
    processFrameLocal false modes config frame = LocalProcResult.ok frame := rfl

/-! ## C9: downsampling lemmas -/

/-- Keeping the indices divisible by `s` is invariant under shifting the
enumeration start by `s`. -/
lemma enumFrom_filter_mod_add {α β : Type} (s : ℕ) (g : α → β) :
    ∀ (l : List α) (k : ℕ),
      ((List.enumFrom (k + s) l).filter (fun p => p.1 % s == 0)).map (fun p => g p.2) =
      ((List.enumFrom k l).filter (fun p => p.1 % s == 0)).map (fun p => g p.2)
  | [], _ => rfl
  | x :: xs, k => by
    have hmod : ((k + s) % s == 0) = (k % s == 0) := by rw [Nat.add_mod_right]
    have hrec := enumFrom_filter_mod_add s g xs (k + 1)
    rw [show k + 1 + s = k + s + 1 from by omega] at hrec
    simp only [List.enumFrom_cons, List.filter_cons, hmod]
    cases hc : (k % s == 0) with
    | true => simp only [if_true, List.map_cons, hrec]
    | false => simpa using hrec

/-- Enumerating from `k` with `0 < k ≤ s` and keeping indices divisible
by `s` is the same as dropping the first `s - k` elements and enumerating
from zero: the surviving absolute indices `s, 2s, ...` sit at positions
`0, s, 2s, ...` of the dropped list. -/
lemma enumFrom_filter_mod_drop {α β : Type} (s : ℕ) (g : α → β) :
    ∀ (l : List α) (k : ℕ), 0 < k → k ≤ s →
      ((List.enumFrom k l).filter (fun p => p.1 % s == 0)).map (fun p => g p.2) =
      (((l.drop (s - k)).enum.filter (fun p => p.1 % s == 0)).map (fun p => g p.2))
  | [], k, _, _ => by simp
  | x :: xs, k, hk0, hks => by
    rcases lt_or_eq_of_le hks with hlt | heq
    · have hmod : (k % s == 0) = false := by
        have hk : k % s = k := Nat.mod_eq_of_lt hlt
        simp [hk, Nat.pos_iff_ne_zero.mp hk0]
      have hdrop : (x :: xs).drop (s - k) = xs.drop (s - (k + 1)) := by
        rw [show s - k = (s - (k + 1)) + 1 from by omega]
        rfl
      simp only [List.enumFrom_cons, List.filter_cons, hmod, Bool.false_eq_true,
        if_false, hdrop]
      exact enumFrom_filter_mod_drop s g xs (k + 1) (Nat.succ_pos k) hlt
    · subst heq
      have hmodk : (k % k == 0) = true := by simp [Nat.mod_self]
      have hmod0 : (0 % k == 0) = true := by simp
      simp only [List.enumFrom_cons, List.filter_cons, hmodk, if_true,
        Nat.sub_self, List.drop, List.enum_cons, hmod0, List.map_cons]
      rw [show k + 1 = 1 + k from Nat.add_comm k 1]
      rw [enumFrom_filter_mod_add k g xs 1]

/-- Head step of the strided selection: the head is always kept, and the
remainder is the strided selection of the list with the next `s - 1`
elements dropped. -/
lemma enum_filter_mod_cons {α β : Type} (s : ℕ) (hs : 0 < s) (g : α → β) (x : α) (xs : List α) :
    (((x :: xs).enum.filter (fun p => p.1 % s == 0)).map (fun p => g p.2)) =
      g x :: (((xs.drop (s - 1)).enum.filter (fun p => p.1 % s == 0)).map (fun p => g p.2)) := by
  have hmod0 : (0 % s == 0) = true := by simp
  rw [List.enum_cons]
  simp only [List.filter_cons, hmod0, if_true, List.map_cons]
  rw [enumFrom_filter_mod_drop s g xs 1 one_pos hs]

/-- Element-wise description of the strided selection: its `j`-th element
is the `j·s`-th element of the underlying list. -/
lemma enum_filter_mod_getElem? {α β : Type} (s : ℕ) (hs : 0 < s) (g : α → β) :
    ∀ (n : ℕ) (l : List α), l.length ≤ n → ∀ (j : ℕ),
      ((l.enum.filter (fun p => p.1 % s == 0)).map (fun p => g p.2))[j]? =
        (l[j * s]?).map g
  | _, [], _, j => by simp
  | 0, x :: xs, h, j => by simp at h
  | n + 1, x :: xs, h, j => by
    rw [enum_filter_mod_cons s hs g]
    cases j with
    | zero => simp
    | succ j =>
      rw [List.getElem?_cons_succ]
      have hlen : (xs.drop (s - 1)).length ≤ n := by
        rw [List.length_drop]
        simp only [List.length_cons] at h
        omega
      rw [enum_filter_mod_getElem? s hs g n (xs.drop (s - 1)) hlen j]
      rw [List.getElem?_drop]
      rw [show (j + 1) * s = ((s - 1) + j * s) + 1 from by rw [Nat.succ_mul]; omega]
      rw [List.getElem?_cons_succ]

/-- C9: a frame list of length at most 50 passes through the downsampling
step unchanged; one of length `n > 50` is reduced to at most 50 frames,
whose `j`-th frame is the input frame at index `j · stride`
(`stride = ⌈n / 50⌉ = (n + 50 - 1) / 50`) with its delay multiplied by
`stride` — exactly the frames at indices divisible by `stride` survive. -/
theorem downsample_strides_and_scales_delays (frames : List GifFrame) :
    (frames.length ≤ 50 → downsampleFrames frames = frames) ∧
    (50 < frames.length →
      (downsampleFrames frames).length ≤ 50 ∧
      ∀ j : ℕ,
        (downsampleFrames frames)[j]? =
          (frames[j * ((frames.length + MAX_FRAMES - 1) / MAX_FRAMES)]?).map
            (fun f => ⟨f.pixels,
              f.delay * ((frames.length + MAX_FRAMES - 1) / MAX_FRAMES)⟩)) := by
  constructor
  · intro h
    rw [downsampleFrames, if_neg (by simp only [MAX_FRAMES]; omega)]
  · intro h
    have hcond : MAX_FRAMES < frames.length := by simpa [MAX_FRAMES] using h
    have hs : 0 < (frames.length + MAX_FRAMES - 1) / MAX_FRAMES := by
      simp only [MAX_FRAMES]
      omega
    have hget : ∀ j : ℕ,
        (downsampleFrames frames)[j]? =
          (frames[j * ((frames.length + MAX_FRAMES - 1) / MAX_FRAMES)]?).map
            (fun f => ⟨f.pixels,
              f.delay * ((frames.length + MAX_FRAMES - 1) / MAX_FRAMES)⟩) := by
      intro j
      rw [downsampleFrames, if_pos hcond]
      exact enum_filter_mod_getElem? ((frames.length + MAX_FRAMES - 1) / MAX_FRAMES) hs
        (fun f => GifFrame.mk f.pixels (f.delay * ((frames.length + MAX_FRAMES - 1) / MAX_FRAMES)))
        frames.length frames le_rfl j
    refine ⟨?_, hget⟩
    have h50 : frames[50 * ((frames.length + MAX_FRAMES - 1) / MAX_FRAMES)]? = none := by
      apply List.getElem?_eq_none
      simp only [MAX_FRAMES]
      omega
    have hnone := hget 50
    rw [h50] at hnone
    simp only [Option.map_none'] at hnone
    exact List.getElem?_eq_none_iff.mp hnone

theorem downsample_strides_and_scales_delays_witness :
    (downsampleFrames (List.replicate 51 ⟨[], 10⟩)).length ≤ 50 ∧
    downsampleFrames (List.replicate 7 ⟨[], 10⟩) = List.replicate 7 ⟨[], 10⟩ :=
  ⟨((downsample_strides_and_scales_delays (List.replicate 51 ⟨[], 10⟩)).2 (by simp)).1,
   (downsample_strides_and_scales_delays (List.replicate 7 ⟨[], 10⟩)).1 (by simp)⟩

/-! ## C6: retry lemmas -/

/-- At most `retries` delays are ever waited. -/
lemma generateWithRetry_length_le (fn : ℕ → AttemptResult) (jitter : ℕ → ℚ) (base : ℚ) :
    ∀ (t a : ℕ), (generateWithRetry fn jitter base a t).2.length ≤ t
  | 0, a => by
    simp only [generateWithRetry]
    cases fn a <;> simp
  | t + 1, a => by
    simp only [generateWithRetry]
    cases fn a with
    | ok v => simp
    | error e =>
      cases hq : isQuotaError e with
      | true =>
        simp only [hq, if_true, List.length_cons]
        exact Nat.succ_le_succ (generateWithRetry_length_le fn jitter base t (a + 1))
      | false => simp [hq]

/-- The delays waited are exactly `base * 2 ^ (3 - retriesLeft) + jitter`
in sequence. -/
lemma generateWithRetry_delays_eq (fn : ℕ → AttemptResult) (jitter : ℕ → ℚ) (base : ℚ) :
    ∀ (t a : ℕ), (generateWithRetry fn jitter base a t).2 =
      (List.range (generateWithRetry fn jitter base a t).2.length).map
        (fun k => base * 2 ^ (3 - (t - k)) + jitter (a + k))
  | 0, a => by
    simp only [generateWithRetry]
    cases fn a <;> simp
  | t + 1, a => by
    simp only [generateWithRetry]
    cases fn a with
    | ok v => simp
    | error e =>
      cases hq : isQuotaError e with
      | false => simp [hq]
      | true =>
        simp only [hq, if_true, List.length_cons, List.range_succ_eq_map,
          List.map_cons, List.map_map]
        congr 1
        conv_lhs => rw [generateWithRetry_delays_eq fn jitter base t (a + 1)]
        apply List.map_congr_left
        intro k hk
        simp only [Function.comp_apply, Nat.succ_sub_succ]
        rw [show a + 1 + k = a + (k + 1) from by omega]

/-- Every attempt that was followed by a retry failed with a
quota-classified error. -/
lemma generateWithRetry_attempts_quota (fn : ℕ → AttemptResult) (jitter : ℕ → ℚ) (base : ℚ) :
    ∀ (t a k : ℕ), k < (generateWithRetry fn jitter base a t).2.length →
      ∃ e, fn (a + k) = AttemptResult.error e ∧ isQuotaError e = true
  | 0, a, k => by
    intro hk
    have := generateWithRetry_length_le fn jitter base 0 a
    omega
  | t + 1, a, k => by
    cases hfa : fn a with
    | ok v =>
      simp only [generateWithRetry, hfa]
      intro hk
      simp at hk
    | error e =>
      cases hq : isQuotaError e with
      | false =>
        simp only [generateWithRetry, hfa, hq]
        intro hk
        simp at hk
      | true =>
        simp only [generateWithRetry, hfa, hq, if_true, List.length_cons]
        intro hk
        cases k with
        | zero => exact ⟨e, by simpa using hfa, hq⟩
        | succ k =>
          have hk' : k < (generateWithRetry fn jitter base (a + 1) t).2.length :=
            Nat.lt_of_succ_lt_succ hk
          obtain ⟨e2, h1, h2⟩ := generateWithRetry_attempts_quota fn jitter base t (a + 1) k hk'
          refine ⟨e2, ?_, h2⟩
          rwa [show a + (k + 1) = a + 1 + k from by omega]

/-- The final result is the outcome of the attempt right after the last
delay: a success is returned, an error (non-quota, or with the budget
exhausted) is thrown to the caller. -/
lemma generateWithRetry_result (fn : ℕ → AttemptResult) (jitter : ℕ → ℚ) (base : ℚ) :
    ∀ (t a : ℕ), (generateWithRetry fn jitter base a t).1 =
      (match fn (a + (generateWithRetry fn jitter base a t).2.length) with
        | AttemptResult.ok v => Except.ok v
        | AttemptResult.error e => Except.error e)
  | 0, a => by
    cases hfa : fn a with
    | ok v => simp [generateWithRetry, hfa]
    | error e => simp [generateWithRetry, hfa]
  | t + 1, a => by
    cases hfa : fn a with
    | ok v => simp [generateWithRetry, hfa]
    | error e =>
      cases hq : isQuotaError e with
      | false => simp [generateWithRetry, hfa, hq]
      | true =>
        simp only [generateWithRetry, hfa, hq, if_true, List.length_cons]
        rw [generateWithRetry_result fn jitter base t (a + 1)]
        rw [show a + ((generateWithRetry fn jitter base (a + 1) t).2.length + 1) =
          a + 1 + (generateWithRetry fn jitter base (a + 1) t).2.length from by omega]

/-! ## C6 -/

/-- C6: the remote call is retried at most 3 times; the delay before the
`k`-th retry is exactly `2000 * 2^k` plus the jitter drawn for that
attempt, hence lies in `[2000·2^k, 2000·2^k + 1000)` when every jitter is
in `[0, 1000)`; a retry is only ever scheduled after a quota-classified
failure (status 429 or message containing "429", "quota" or "exhausted");
the result is the outcome of the attempt after the last delay, and a
non-quota failure of the first attempt is propagated immediately with no
delay at all. -/
theorem remote_retry_backoff_schedule (fn : ℕ → AttemptResult) (jitter : ℕ → ℚ)
    (hj : ∀ k, 0 ≤ jitter k ∧ jitter k < 1000) :
    (generateWithRetryTop fn jitter).2.length ≤ 3 ∧
    (generateWithRetryTop fn jitter).2 =
      (List.range (generateWithRetryTop fn jitter).2.length).map
        (fun k => 2000 * 2 ^ k + jitter k) ∧
    (∀ k, k < (generateWithRetryTop fn jitter).2.length →
      ∃ d, (generateWithRetryTop fn jitter).2[k]? = some d ∧
        2000 * 2 ^ k ≤ d ∧ d < 2000 * 2 ^ k + 1000) ∧
    (∀ k, k < (generateWithRetryTop fn jitter).2.length →
      ∃ e, fn k = AttemptResult.error e ∧ isQuotaError e = true) ∧
    (∀ e, fn ((generateWithRetryTop fn jitter).2.length) = AttemptResult.error e →
      (generateWithRetryTop fn jitter).1 = Except.error e) ∧
    (∀ v, fn ((generateWithRetryTop fn jitter).2.length) = AttemptResult.ok v →
      (generateWithRetryTop fn jitter).1 = Except.ok v) ∧
    (∀ e, fn 0 = AttemptResult.error e → isQuotaError e = false →
      generateWithRetryTop fn jitter = (Except.error e, [])) := by
  have hlen : (generateWithRetryTop fn jitter).2.length ≤ 3 :=
    generateWithRetry_length_le fn jitter 2000 3 0
  have hdel0 : (generateWithRetry fn jitter 2000 0 3).2 =
      (List.range (generateWithRetry fn jitter 2000 0 3).2.length).map
        (fun k => 2000 * 2 ^ k + jitter k) := by
    conv_lhs => rw [generateWithRetry_delays_eq fn jitter 2000 3 0]
    apply List.map_congr_left
    intro k hk
    rw [List.mem_range] at hk
    have h3 := generateWithRetry_length_le fn jitter 2000 3 0
    rw [show 3 - (3 - k) = k from by omega, Nat.zero_add]
  have hdel : (generateWithRetryTop fn jitter).2 =
      (List.range (generateWithRetryTop fn jitter).2.length).map
        (fun k => 2000 * 2 ^ k + jitter k) := hdel0
  have hres0 := generateWithRetry_result fn jitter 2000 3 0
  rw [show (0 : ℕ) + (generateWithRetry fn jitter 2000 0 3).2.length =
    (generateWithRetry fn jitter 2000 0 3).2.length from by omega] at hres0
  refine ⟨hlen, hdel, ?_, ?_, ?_, ?_, ?_⟩
  · intro k hk
    refine ⟨2000 * 2 ^ k + jitter k, ?_, ?_, ?_⟩
    · rw [hdel, List.getElem?_map, List.getElem?_range hk]
      rfl
    · have := (hj k).1
      linarith
    · have := (hj k).2
      linarith
  · intro k hk
    have := generateWithRetry_attempts_quota fn jitter 2000 3 0 k hk
    simpa using this
  · intro e he
    have he0 : fn ((generateWithRetry fn jitter 2000 0 3).2.length) =
      AttemptResult.error e := he
    show (generateWithRetry fn jitter 2000 0 3).1 = Except.error e
    rw [hres0, he0]
  · intro v hv
    have hv0 : fn ((generateWithRetry fn jitter 2000 0 3).2.length) =
      AttemptResult.ok v := hv
    show (generateWithRetry fn jitter 2000 0 3).1 = Except.ok v
    rw [hres0, hv0]
  · intro e he hq
    show generateWithRetry fn jitter 2000 0 3 = (Except.error e, [])
    simp [generateWithRetry, he, hq]

theorem remote_retry_backoff_schedule_witness :
    (generateWithRetryTop (fun _ => AttemptResult.error ⟨some 429, none⟩) (fun _ => 0)).2.length ≤ 3 ∧
    (generateWithRetryTop (fun _ => AttemptResult.error ⟨some 429, none⟩) (fun _ => 0)).1 =
      Except.error ⟨some 429, none⟩ := by
  have h := remote_retry_backoff_schedule (fun _ => AttemptResult.error ⟨some 429, none⟩)
    (fun _ => 0) (fun k => ⟨le_refl 0, by norm_num⟩)
  exact ⟨h.1, h.2.2.2.2.1 ⟨some 429, none⟩ rfl⟩

/-! ## C5/C7: scheduler-flag lemmas -/

/-- Once the flag is set, a job attempts no remote call, uses the local
fallback, and leaves the flag set. -/
lemma runJob_flag_true (useAI : Bool) (j : JobSpec) :
    runJob useAI true j = (⟨false, true⟩, true) := by
  simp [runJob]

/-- Once the flag is set, the rest of the run is all-local and the flag
stays set. -/
lemma runJobsAux_flag_true (useAI : Bool) :
    ∀ jobs : List JobSpec,
      runJobsAux useAI true jobs = (List.replicate jobs.length ⟨false, true⟩, true)
  | [] => rfl
  | j :: js => by
    simp only [runJobsAux, runJob_flag_true, List.length_cons]
    rw [runJobsAux_flag_true useAI js]
    simp [List.replicate_succ]

/-- Splitting a run at any point: the second half runs from the flag the
first half ends with. -/
lemma runJobsAux_append (useAI : Bool) :
    ∀ (l1 : List JobSpec) (f : Bool) (l2 : List JobSpec),
      runJobsAux useAI f (l1 ++ l2) =
        ((runJobsAux useAI f l1).1 ++
          (runJobsAux useAI (runJobsAux useAI f l1).2 l2).1,
         (runJobsAux useAI (runJobsAux useAI f l1).2 l2).2)
  | [], f, l2 => rfl
  | j :: js, f, l2 => by
    have ih := runJobsAux_append useAI js (runJob useAI f j).2 l2
    simp only [List.cons_append, runJobsAux, List.append_eq, ih]

/-- A run produces one result per job. -/
lemma runJobs_length (useAI : Bool) :
    ∀ (f : Bool) (jobs : List JobSpec), (runJobs useAI f jobs).length = jobs.length
  | _, [] => rfl
  | f, j :: js => by
    simp only [runJobs, runJobsAux, List.length_cons]
    rw [← runJobs_length useAI (runJob useAI f j).2 js]
    rfl

/-! ## C5 -/

/-- C5: if the quota-exhaustion flag is set by the time the first `k` jobs
have run, then every job at position `j ≥ k` attempts no remote call and
takes the local path. -/
theorem quota_flag_blocks_later_jobs (useAI : Bool) (jobs : List JobSpec)
    (k j : ℕ) (r : JobResult)
    (hflag : finalFlag useAI false (jobs.take k) = true)
    (hkj : k ≤ j)
    (hr : (runJobs useAI false jobs)[j]? = some r) :
    r.attemptedRemote = false ∧ r.usedLocal = true := by
  have hsplit := runJobsAux_append useAI (jobs.take k) false (jobs.drop k)
  rw [List.take_append_drop] at hsplit
  have hjobs : runJobs useAI false jobs =
      (runJobsAux useAI false (jobs.take k)).1 ++
      (runJobsAux useAI (runJobsAux useAI false (jobs.take k)).2 (jobs.drop k)).1 := by
    rw [runJobs, hsplit]
  have hflag2 : (runJobsAux useAI false (jobs.take k)).2 = true := hflag
  rw [hjobs, hflag2] at hr
  simp only [runJobsAux_flag_true] at hr
  have hlen1 : ((runJobsAux useAI false (jobs.take k)).1).length ≤ j := by
    have h1 : ((runJobsAux useAI false (jobs.take k)).1).length = (jobs.take k).length :=
      runJobs_length useAI false (jobs.take k)
    rw [h1, List.length_take]
    omega
  rw [List.getElem?_append_right hlen1] at hr
  have hmem : r ∈ List.replicate (jobs.drop k).length (⟨false, true⟩ : JobResult) :=
    List.getElem?_mem hr
  rw [List.eq_of_mem_replicate hmem]
  exact ⟨rfl, rfl⟩

theorem quota_flag_blocks_later_jobs_witness :
    (⟨false, true⟩ : JobResult).attemptedRemote = false ∧
    (⟨false, true⟩ : JobResult).usedLocal = true :=
  quota_flag_blocks_later_jobs true
    [⟨RemoteOutcome.failure ⟨none, some "quota"⟩⟩, ⟨RemoteOutcome.success⟩]
    1 1 ⟨false, true⟩ (by decide) le_rfl (by decide)

/-! ## C7 -/

/-- C7: after a non-cancelled run the encoder receives the transparent
key `0x00FF00` exactly when remove-bg is active, the requested
replacement is transparent, the remote path was enabled, and the
quota-exhaustion flag did not end the run set; in every other case the
key is `none`.  The flag is monotone — once set by any prefix of the run
it is still set at the end — so "never set during the run" is the same as
"not set at the end". -/
theorem transparent_key_iff (modes : List Mode) (bgReplace : BgReplace)
    (useAI : Bool) (jobs : List JobSpec) :
    (transparentKey modes bgReplace useAI (finalFlag useAI false jobs) = some 0x00FF00 ↔
      (Mode.removeBg ∈ modes ∧ bgReplace = BgReplace.transparent ∧ useAI = true ∧
        finalFlag useAI false jobs = false)) ∧
    (transparentKey modes bgReplace useAI (finalFlag useAI false jobs) = some 0x00FF00 ∨
      transparentKey modes bgReplace useAI (finalFlag useAI false jobs) = none) ∧
    (∀ k, finalFlag useAI false (jobs.take k) = true → finalFlag useAI false jobs = true) := by
  refine ⟨⟨fun h => ?_, fun hc => ?_⟩, ?_, ?_⟩
  · rw [transparentKey] at h
    split_ifs at h with hc hq
    rcases Bool.and_eq_true _ _ |>.mp hq with ⟨hu, hnf⟩
    exact ⟨hc.1, hc.2, hu, by simpa using hnf⟩
  · obtain ⟨h1, h2, h3, h4⟩ := hc
    subst h3
    rw [transparentKey, if_pos ⟨h1, h2⟩, if_pos (by simp [h4])]
  · rw [transparentKey]
    split_ifs <;> simp
  · intro k hk
    have hsplit := runJobsAux_append useAI (jobs.take k) false (jobs.drop k)
    rw [List.take_append_drop] at hsplit
    have hflag2 : (runJobsAux useAI false (jobs.take k)).2 = true := hk
    show (runJobsAux useAI false jobs).2 = true
    rw [hsplit, hflag2]
    simp only [runJobsAux_flag_true]

theorem transparent_key_iff_witness :
    transparentKey [Mode.removeBg] BgReplace.transparent true (finalFlag true false []) =
      some 0x00FF00 :=
  (transparent_key_iff [Mode.removeBg] BgReplace.transparent true []).1.mpr
    ⟨by decide, rfl, rfl, rfl⟩

end GifAichemy
